import Mathlib

/-!
# Verification of the `track` time-tracking record store

Shallow embedding of the Go sources (package `core`: the record/pause data
model, filters, the filtered record scan, record deletion with directory
cascade, record loading, and the report aggregator) together with proofs
about the embedded operations.

Modelling conventions:
* `time.Time` instants are modelled as `Nat`.  The Go zero time
  (`time.Time.IsZero`) is modelled as `0`; `a.Before(b)` is `a < b` and
  `a.After(b)` is `b < a`.  `util.NoTime` is `0`.
* `time.Duration` values are modelled as `Int` (they arise as differences).
* Go slices become `List`, strings stay `String`.
* Fallible operations return `Except` or `Option`.
* Where a function of the repository is not part of the given sources
  (`util.DurationClip`, the project tree), it is modelled from the spec and
  marked as such in its doc comment.
-/

set_option autoImplicit false

namespace Track

/-- A pause inside a record (Go struct `Pause`: start, optional end, note).
`End = 0` means the pause is still open. -/
structure Pause where
  Start : Nat
  End : Nat
  Note : String
deriving DecidableEq, Repr

/-- A tracked work session (Go struct `Record`).  `End = 0` means the record
is open / in progress. -/
structure Record where
  Project : String
  Start : Nat
  End : Nat
  Note : String
  Tags : List String
  Pause : List Pause
deriving DecidableEq, Repr

/-- Modelled from the spec: `util.DurationClip` (not in the given sources).
Duration of the interval from `s` to `e` (with `e = 0` meaning "still open",
so "now" is used), truncated to its overlap with the window from `lo` to
`hi` (`0` meaning unbounded on that side); zero when the interval does not
intersect the window.  `Nat` subtraction supplies the truncation at zero. -/
def durationClip (now s e lo hi : Nat) : Nat :=
  let e1 := if e = 0 then now else e
  let s1 := max s lo
  let e2 := if hi = 0 then e1 else min e1 hi
  e2 - s1

/-- `Pause.Duration` from the source: clipped duration of the pause. -/
def Pause.Duration (p : Pause) (now lo hi : Nat) : Nat :=
  durationClip now p.Start p.End lo hi

/-- `Record.IsPaused` from the source: the last pause exists and is open. -/
def Record.IsPaused (r : Record) : Bool :=
  match r.Pause.getLast? with
  | some p => p.End = 0
  | none => false

/-- `Record.TotalDuration` from the source: clipped span of the record,
including pause time. -/
def Record.TotalDuration (r : Record) (now lo hi : Nat) : Nat :=
  durationClip now r.Start r.End lo hi

/-- `Record.PauseDuration` from the source: sum of the clipped spans of all
pauses of the record. -/
def Record.PauseDuration (r : Record) (now lo hi : Nat) : Nat :=
  (r.Pause.map (fun p => p.Duration now lo hi)).sum

/-- `Record.Duration` from the source: active (work) time, i.e. the clipped
total span minus the clipped pause time. -/
def Record.Duration (r : Record) (now lo hi : Nat) : Int :=
  (durationClip now r.Start r.End lo hi : Int) - (r.PauseDuration now lo hi : Int)

/-! ## `Record.Check` -/

/-- The pause loop of `Record.Check`, carrying the previous pause's start and
end (initially `util.NoTime`, i.e. `0`).  Mirrors the Go loop body check for
check: pause before record start, pause after record end, starts out of
chronological order, overlapping pauses. -/
def checkPauses (rStart rEnd : Nat) : Nat → Nat → List Pause → Option String
  | _, _, [] => none
  | prevStart, prevEnd, p :: rest =>
    if p.Start < rStart then some "pause starts before record"
    else if rEnd ≠ 0 ∧ rEnd < p.End then some "pause ends after record"
    else if p.Start < prevStart then some "pause starts not in chronological order"
    else if p.Start < prevEnd then some "pauses overlap"
    else checkPauses rStart rEnd p.Start p.End rest

/-- `Record.Check` from the source: returns `some message` on the first
violated rule, `none` when the record is consistent. -/
def Record.Check (r : Record) : Option String :=
  if r.End ≠ 0 ∧ r.End < r.Start then some "end time is before start time"
  else checkPauses r.Start r.End 0 0 r.Pause

/-- Spec-level consistency conditions for a record, following the claim's
words with the pause-start ordering taken *strictly* ("pauses are strictly
chronologically ordered by start"). -/
def RecordConsistentStrict (r : Record) : Prop :=
  (r.End = 0 ∨ r.Start ≤ r.End)
  ∧ r.Pause.Chain' (fun p q => p.Start < q.Start)
  ∧ r.Pause.Chain' (fun p q => p.End ≤ q.Start)
  ∧ ∀ p ∈ r.Pause, r.Start ≤ p.Start ∧ (r.End ≠ 0 → p.End ≤ r.End)

/-- Spec-level consistency conditions for a record, with the pause-start
ordering taken non-strictly (each pause's start at or after the previous
pause's start) — this is what the code enforces. -/
def RecordConsistent (r : Record) : Prop :=
  (r.End = 0 ∨ r.Start ≤ r.End)
  ∧ r.Pause.Chain' (fun p q => p.Start ≤ q.Start)
  ∧ r.Pause.Chain' (fun p q => p.End ≤ q.Start)
  ∧ ∀ p ∈ r.Pause, r.Start ≤ p.Start ∧ (r.End ≠ 0 → p.End ≤ r.End)

/-- Ordering part of the pause loop's postcondition, carrying the previous
pause's start and end. -/
def chainFrom (ps pe : Nat) : List Pause → Prop
  | [] => True
  | p :: rest => ps ≤ p.Start ∧ pe ≤ p.Start ∧ chainFrom p.Start p.End rest

lemma chainFrom_iff_chain' (l : List Pause) (p : Pause) :
    chainFrom p.Start p.End l ↔
      List.Chain' (fun a b : Pause => a.Start ≤ b.Start) (p :: l)
      ∧ List.Chain' (fun a b : Pause => a.End ≤ b.Start) (p :: l) := by
  induction l generalizing p with
  | nil => simp [chainFrom]
  | cons q rest ih =>
    simp only [chainFrom, List.chain'_cons, ih q]
    tauto

lemma checkPauses_eq_none_iff (rs re : Nat) (l : List Pause) :
    ∀ ps pe, checkPauses rs re ps pe l = none ↔
      ((∀ p ∈ l, rs ≤ p.Start ∧ (re ≠ 0 → p.End ≤ re)) ∧ chainFrom ps pe l) := by
  induction l with
  | nil => simp [checkPauses, chainFrom]
  | cons p rest ih =>
    intro ps pe
    simp only [checkPauses, chainFrom, List.mem_cons]
    split_ifs with h1 h2 h3 h4
    · simp only [false_iff]
      intro h
      exact absurd (h.1 p (Or.inl rfl)).1 (by omega)
    · simp only [false_iff]
      intro h
      have := (h.1 p (Or.inl rfl)).2
      omega
    · simp only [false_iff]
      intro h
      exact absurd h.2.1 (by omega)
    · simp only [false_iff]
      intro h
      exact absurd h.2.2.1 (by omega)
    · rw [ih]
      constructor
      · rintro ⟨hall, hchain⟩
        refine ⟨?_, by omega, by omega, hchain⟩
        rintro q (rfl | hq)
        · exact ⟨by omega, by omega⟩
        · exact hall q hq
      · rintro ⟨hall, _, _, hchain⟩
        exact ⟨fun q hq => hall q (Or.inr hq), hchain⟩

/-- `Record.Check` succeeds exactly on the (non-strict) spec-level
consistency conditions. -/
lemma check_eq_none_iff_consistent (r : Record) :
    r.Check = none ↔ RecordConsistent r := by
  unfold Record.Check RecordConsistent
  split_ifs with h
  · simp only [false_iff]
    intro hc
    rcases hc.1 with h0 | hle <;> omega
  · rw [checkPauses_eq_none_iff]
    cases hl : r.Pause with
    | nil => simp [chainFrom, hl]; omega
    | cons p rest =>
      rw [chainFrom]
      have := chainFrom_iff_chain' rest p
      constructor
      · rintro ⟨hall, _, _, hcf⟩
        refine ⟨by omega, (this.mp hcf).1, (this.mp hcf).2, hall⟩
      · rintro ⟨_, hc1, hc2, hall⟩
        refine ⟨hall, ?_, ?_, this.mpr ⟨hc1, hc2⟩⟩
        · omega
        · omega

/-! ## `Track.StopRecord` -/

/-- The pause-trimming loop of `Track.StopRecord`, operating on the record's
pause list *reversed* (the Go loop repeatedly inspects and pops the last
pause).  `endT` is the stop time; the first component threads the record's
current end (initially `endT`), the second is the surviving (still reversed)
pause list.  A pause is popped while it is open (`End = 0`) or ends after
`endT`, and each pop rewinds the end to that pause's start. -/
def stopTrimRev (endT : Nat) : Nat → List Pause → Nat × List Pause
  | e, [] => (e, [])
  | e, p :: rest =>
    if p.End = 0 ∨ endT < p.End then stopTrimRev endT p.Start rest
    else (e, p :: rest)

/-- The in-record effect of `Track.StopRecord` (the surrounding
load-open-record / save-to-disk steps are outside the data model): set the
end to `endT`, then trim trailing pauses as the Go loop does. -/
def stopRecord (r : Record) (endT : Nat) : Record :=
  let res := stopTrimRev endT endT r.Pause.reverse
  { r with End := res.1, Pause := res.2.reverse }

lemma stopTrimRev_spec (t : Nat) (lrev : List Pause) :
    ∀ e, ∃ drev : List Pause,
      lrev = drev ++ (stopTrimRev t e lrev).2
      ∧ (∀ p ∈ drev, p.End = 0 ∨ t < p.End)
      ∧ (stopTrimRev t e lrev).1 =
          (match drev.getLast? with | none => e | some p => p.Start)
      ∧ (∀ q, (stopTrimRev t e lrev).2.head? = some q → q.End ≠ 0 ∧ q.End ≤ t) := by
  induction lrev with
  | nil =>
    intro e
    exact ⟨[], by simp [stopTrimRev]⟩
  | cons p rest ih =>
    intro e
    by_cases hc : p.End = 0 ∨ t < p.End
    · obtain ⟨drev, heq, hall, hend, hkeep⟩ := ih p.Start
      have hstep : stopTrimRev t e (p :: rest) = stopTrimRev t p.Start rest := by
        simp [stopTrimRev, hc]
      refine ⟨p :: drev, ?_, ?_, ?_, ?_⟩
      · rw [hstep]; simpa using heq
      · intro q hq
        rcases List.mem_cons.mp hq with rfl | hq2
        · exact hc
        · exact hall q hq2
      · rw [hstep, hend]
        cases drev with
        | nil => simp
        | cons d ds =>
          rw [List.getLast?_cons_cons]
          cases hgl : (d :: ds).getLast? with
          | none =>
            rw [List.getLast?_eq_none_iff] at hgl
            simp at hgl
          | some x => rfl
      · rw [hstep]; exact hkeep
    · have hstep : stopTrimRev t e (p :: rest) = (e, p :: rest) := by
        simp [stopTrimRev, hc]
      refine ⟨[], by simp [hstep], by simp, by simp [hstep], ?_⟩
      rw [hstep]
      rintro q hq
      simp only [List.head?_cons, Option.some.injEq] at hq
      subst hq
      push_neg at hc
      exact ⟨hc.1, by omega⟩

/-- Full characterization of the in-record effect of `StopRecord`: the
surviving pauses are a prefix of the original list, every discarded pause was
open or ended after the stop time `t`, the new end is `t` when nothing was
discarded and otherwise the start of the earliest discarded pause, the last
surviving pause (if any) is closed with end at or before `t`, and — for a
record satisfying the consistency invariants — at or before the new end. -/
lemma stopRecord_characterization (r : Record) (t : Nat) :
    ∃ keep dropped : List Pause,
      r.Pause = keep ++ dropped
      ∧ (stopRecord r t).Pause = keep
      ∧ (stopRecord r t).Project = r.Project ∧ (stopRecord r t).Start = r.Start
      ∧ (∀ p ∈ dropped, p.End = 0 ∨ t < p.End)
      ∧ (stopRecord r t).End =
          (match dropped.head? with | none => t | some p => p.Start)
      ∧ (∀ q, keep.getLast? = some q → q.End ≠ 0 ∧ q.End ≤ t)
      ∧ (RecordConsistent r → ∀ q, keep.getLast? = some q →
          q.End ≤ (stopRecord r t).End) := by
  obtain ⟨drev, heq, hall, hend, hkeep⟩ := stopTrimRev_spec t r.Pause.reverse t
  set res := stopTrimRev t t r.Pause.reverse with hres
  refine ⟨res.2.reverse, drev.reverse, ?_, rfl, rfl, rfl, ?_, ?_, ?_, ?_⟩
  · have : r.Pause.reverse.reverse = (drev ++ res.2).reverse := by rw [← heq]
    simpa using this
  · intro p hp
    exact hall p (List.mem_reverse.mp hp)
  · show res.1 = _
    rw [hend, ← List.head?_reverse]
  · intro q hq
    rw [List.getLast?_reverse] at hq
    exact hkeep q hq
  · intro hcons q hq
    rw [List.getLast?_reverse] at hq
    have hpause : r.Pause = res.2.reverse ++ drev.reverse := by
      have : r.Pause.reverse.reverse = (drev ++ res.2).reverse := by rw [← heq]
      simpa using this
    cases hd : drev.reverse with
    | nil =>
      show q.End ≤ res.1
      rw [hend]
      have : drev = [] := by simpa using congrArg List.reverse hd
      rw [this]
      exact (hkeep q hq).2
    | cons d ds =>
      show q.End ≤ res.1
      rw [hend]
      have hlast : drev.getLast? = some d := by
        rw [← List.head?_reverse, hd, List.head?_cons]
      rw [hlast]
      have hchain := hcons.2.2.1
      rw [hpause, hd] at hchain
      have := (List.chain'_append.mp hchain).2.2
      rw [List.getLast?_reverse] at this
      exact this q hq d (by simp)

/-- A record with start 09:00 and one open pause starting 10:00, stopped at
11:00 (times in minutes of the day). -/
def stopExample : Record :=
  { Project := "p", Start := 540, End := 0, Note := "", Tags := [],
    Pause := [{ Start := 600, End := 0, Note := "" }] }

/-- Claim C3: `StopRecord(t)` sets the record's end to `t` and then, while
the last pause is open or its end is after `t`, sets the record's end to that
pause's start and discards the pause, until the last remaining pause (if any)
ends at or before the new end (the latter for records satisfying the
consistency invariants; unconditionally it ends at or before `t`).  In
particular a record with start 09:00 and a single open pause starting 10:00,
stopped at 11:00, results in end 10:00 and zero pauses. -/
theorem claim_C3_stopRecord :
    (∀ (r : Record) (t : Nat),
      ∃ keep dropped : List Pause,
        r.Pause = keep ++ dropped
        ∧ (stopRecord r t).Pause = keep
        ∧ (stopRecord r t).Project = r.Project ∧ (stopRecord r t).Start = r.Start
        ∧ (∀ p ∈ dropped, p.End = 0 ∨ t < p.End)
        ∧ (stopRecord r t).End =
            (match dropped.head? with | none => t | some p => p.Start)
        ∧ (∀ q, keep.getLast? = some q → q.End ≠ 0 ∧ q.End ≤ t)
        ∧ (RecordConsistent r → ∀ q, keep.getLast? = some q →
            q.End ≤ (stopRecord r t).End))
    ∧ stopRecord stopExample 660 =
        { Project := "p", Start := 540, End := 600, Note := "", Tags := [],
          Pause := [] } :=
  ⟨stopRecord_characterization, by decide⟩

/-- Witness for C3: the characterization instantiated at the stop-while-
paused example record and stop time 11:00. -/
theorem claim_C3_stopRecord_witness :
    ∃ keep dropped : List Pause,
      stopExample.Pause = keep ++ dropped
      ∧ (stopRecord stopExample 660).Pause = keep
      ∧ (stopRecord stopExample 660).Project = stopExample.Project
      ∧ (stopRecord stopExample 660).Start = stopExample.Start
      ∧ (∀ p ∈ dropped, p.End = 0 ∨ 660 < p.End)
      ∧ (stopRecord stopExample 660).End =
          (match dropped.head? with | none => 660 | some p => p.Start)
      ∧ (∀ q, keep.getLast? = some q → q.End ≠ 0 ∧ q.End ≤ 660)
      ∧ (RecordConsistent stopExample → ∀ q, keep.getLast? = some q →
          q.End ≤ (stopRecord stopExample 660).End) :=
  claim_C3_stopRecord.1 stopExample 660

/-- Claim C4 (as stated, with *strict* ordering of pause starts) is wrong:
this record has two pauses with equal starts, so it is not strictly
chronologically ordered, yet `Check` succeeds on it. -/
theorem claim_C4_counterexample :
    Record.Check
        { Project := "p", Start := 1, End := 20, Note := "", Tags := [],
          Pause := [{ Start := 10, End := 10, Note := "" },
                    { Start := 10, End := 11, Note := "" }] } = none
    ∧ ¬ RecordConsistentStrict
        { Project := "p", Start := 1, End := 20, Note := "", Tags := [],
          Pause := [{ Start := 10, End := 10, Note := "" },
                    { Start := 10, End := 11, Note := "" }] } := by
  constructor
  · decide
  · rintro ⟨-, hstrict, -, -⟩
    rw [List.chain'_cons] at hstrict
    exact Nat.lt_irrefl 10 hstrict.1

/-- Claim C4, amended: `Check()` succeeds iff the end is absent or at or
after the start, the pauses are ordered by start (each pause's start at or
after the previous pause's start — non-strictly), each pause's start is at
or after the previous pause's end, and each pause is contained in the
record's span (start at or after the record's start; end at or before the
record's end whenever the record has one). -/
theorem claim_C4_check :
    ∀ r : Record, r.Check = none ↔ RecordConsistent r :=
  check_eq_none_iff_consistent

/-! ## Filter predicates -/

/-- A project (name, optional parent project name — empty string for none —
and archived flag). -/
structure Project where
  name : String
  parent : String
  archived : Bool
deriving DecidableEq, Repr

/-- The Go zero value of `Project`, produced by a map lookup at a missing
key. -/
def zeroProject : Project := { name := "", parent := "", archived := false }

/-- Go map read `projects[k]` over a snapshot map of projects: the stored
value, or the zero value when the key is absent. -/
def projectsGet (m : List (String × Project)) (k : String) : Project :=
  match m.find? (fun kv => kv.1 == k) with
  | some kv => kv.2
  | none => zeroProject

/-- `FilterByTime` from the source: keeps records partially included in the
given span; zero bounds are ignored (open span); for a record with a zero
end only the start time is compared. -/
def filterByTime (s e : Nat) (r : Record) : Bool :=
  if r.End = 0 then
    decide ((s = 0 ∨ s < r.Start) ∧ (e = 0 ∨ r.Start < e))
  else
    decide ((s = 0 ∨ s < r.End) ∧ (e = 0 ∨ r.Start < e))

/-- `FilterByArchived` from the source: the archived flag of the record's
project (looked up in the snapshot map) equals the expected flag. -/
def filterByArchived (archived : Bool) (m : List (String × Project)) (r : Record) : Bool :=
  (projectsGet m r.Project).archived == archived

/-- `Filter` from the source: a record passes iff every filter function in
the list accepts it (left to right, short-circuiting). -/
def filterAll (r : Record) (fs : List (Record → Bool)) : Bool :=
  fs.all (fun f => f r)

/-! ## `Record.InsertPause` -/

/-- `Record.InsertPause` from the source: rejected when the new start
precedes the record's start (no pauses yet) or the last pause's end;
otherwise appended as the new last pause. -/
def insertPause (r : Record) (startT endT : Nat) (note : String) :
    Except String (Pause × Record) :=
  match r.Pause.getLast? with
  | none =>
    if startT < r.Start then
      Except.error "start of pause before start of current record"
    else
      Except.ok ({ Start := startT, End := endT, Note := note },
        { r with Pause := r.Pause ++ [{ Start := startT, End := endT, Note := note }] })
  | some lastP =>
    if startT < lastP.End then
      Except.error "start of pause before end of previous pause"
    else
      Except.ok ({ Start := startT, End := endT, Note := note },
        { r with Pause := r.Pause ++ [{ Start := startT, End := endT, Note := note }] })

/-- Claim C8: the time-range filter with both bounds zero matches every
record; an open record's match is determined by its start alone; a closed
record is matched by comparing its end against the lower bound and its start
against the upper bound (overlap test). -/
theorem claim_C8_filterByTime :
    ∀ (s e : Nat) (r r2 : Record),
      filterByTime 0 0 r = true
      ∧ (r.End = 0 → r2.End = 0 → r.Start = r2.Start →
          filterByTime s e r = filterByTime s e r2)
      ∧ (r.End ≠ 0 →
          (filterByTime s e r = true ↔ (s = 0 ∨ s < r.End) ∧ (e = 0 ∨ r.Start < e))) := by
  intro s e r r2
  refine ⟨?_, ?_, ?_⟩
  · by_cases h : r.End = 0 <;> simp [filterByTime, h]
  · intro h1 h2 h3
    simp [filterByTime, h1, h2, h3]
  · intro h
    simp [filterByTime, h]

/-- Witness for C8 at concrete inputs: an arbitrary record under zero
bounds, two open records sharing a start, and a closed record. -/
theorem claim_C8_filterByTime_witness :
    filterByTime 0 0 { Project := "a", Start := 3, End := 9, Note := "", Tags := [], Pause := [] } = true
    ∧ filterByTime 5 12
        { Project := "a", Start := 6, End := 0, Note := "x", Tags := [], Pause := [] }
      = filterByTime 5 12
        { Project := "b", Start := 6, End := 0, Note := "y", Tags := ["t"], Pause := [] }
    ∧ (filterByTime 5 12
        { Project := "a", Start := 3, End := 9, Note := "", Tags := [], Pause := [] } = true
        ↔ ((5 = 0 ∨ 5 < 9) ∧ (12 = 0 ∨ 3 < 12))) :=
  ⟨(claim_C8_filterByTime 0 0
      { Project := "a", Start := 3, End := 9, Note := "", Tags := [], Pause := [] }
      { Project := "a", Start := 3, End := 9, Note := "", Tags := [], Pause := [] }).1,
   (claim_C8_filterByTime 5 12
      { Project := "a", Start := 6, End := 0, Note := "x", Tags := [], Pause := [] }
      { Project := "b", Start := 6, End := 0, Note := "y", Tags := ["t"], Pause := [] }).2.1
      rfl rfl rfl,
   (claim_C8_filterByTime 5 12
      { Project := "a", Start := 3, End := 9, Note := "", Tags := [], Pause := [] }
      { Project := "a", Start := 3, End := 9, Note := "", Tags := [], Pause := [] }).2.2
      (by decide)⟩

/-- Claim C9: when the record's project name is absent from the snapshot
map, the archived filter evaluates a zero-value `Project`, so
`FilterByArchived(false, m)` accepts the record and
`FilterByArchived(true, m)` rejects it. -/
theorem claim_C9_filterByArchived :
    ∀ (m : List (String × Project)) (r : Record),
      m.find? (fun kv => kv.1 == r.Project) = none →
      filterByArchived false m r = true ∧ filterByArchived true m r = false := by
  intro m r h
  simp [filterByArchived, projectsGet, h, zeroProject]

/-- Witness for C9: a one-entry map that does not contain the record's
project. -/
theorem claim_C9_filterByArchived_witness :
    filterByArchived false [("x", { name := "x", parent := "", archived := true })]
      { Project := "y", Start := 1, End := 0, Note := "", Tags := [], Pause := [] } = true
    ∧ filterByArchived true [("x", { name := "x", parent := "", archived := true })]
      { Project := "y", Start := 1, End := 0, Note := "", Tags := [], Pause := [] } = false :=
  claim_C9_filterByArchived _ _ (by decide)

/-- Claim C10: for a record whose last pause is open (zero end),
`InsertPause` never rejects — the rejection test compares the new start
against the open pause's zero end — and appends the new pause, so the
previously open pause is no longer the last one. -/
theorem claim_C10_insertPause :
    ∀ (r : Record) (t e : Nat) (n : String) (lp : Pause),
      r.Pause.getLast? = some lp → lp.End = 0 →
      insertPause r t e n =
        Except.ok ({ Start := t, End := e, Note := n },
          { r with Pause := r.Pause ++ [{ Start := t, End := e, Note := n }] })
      ∧ lp ∈ r.Pause
      ∧ (r.Pause ++ [({ Start := t, End := e, Note := n } : Pause)]).getLast?
          = some ({ Start := t, End := e, Note := n } : Pause) := by
  intro r t e n lp hlast hopen
  refine ⟨?_, ?_, ?_⟩
  · simp [insertPause, hlast, hopen]
  · exact List.mem_of_mem_getLast? (Option.mem_def.mpr hlast)
  · simp

/-- Witness for C10: inserting a closed pause into a record that is
currently paused (open pause starting at 600). -/
theorem claim_C10_insertPause_witness :
    insertPause
        { Project := "p", Start := 540, End := 0, Note := "", Tags := [],
          Pause := [{ Start := 600, End := 0, Note := "" }] } 700 710 "n" =
      Except.ok ({ Start := 700, End := 710, Note := "n" },
        { Project := "p", Start := 540, End := 0, Note := "", Tags := [],
          Pause := [{ Start := 600, End := 0, Note := "" },
                    { Start := 700, End := 710, Note := "n" }] }) :=
  (claim_C10_insertPause
    { Project := "p", Start := 540, End := 0, Note := "", Tags := [],
      Pause := [{ Start := 600, End := 0, Note := "" }] }
    700 710 "n" { Start := 600, End := 0, Note := "" } rfl rfl).1

/-! ## Report aggregator (`NewReporter`)

The Go `totals` map (`map[string]time.Duration`) is modelled as an
association list without duplicate keys; a read at a missing key yields the
zero value, a write at a missing key inserts.  Go's `for k := range m`
iterates in an unspecified order, so the roll-up loop takes the iteration
order as an explicit parameter. -/

/-- Map read returning `none` when the key is absent. -/
def alookup : List (String × Int) → String → Option Int
  | [], _ => none
  | kv :: rest, k => if kv.1 == k then some kv.2 else alookup rest k

/-- Go map read: the stored value, or the zero duration when absent. -/
def alookupD (m : List (String × Int)) (k : String) : Int :=
  (alookup m k).getD 0

/-- Go map write at an existing key. -/
def aupdate : List (String × Int) → String → (Int → Int) → List (String × Int)
  | [], _, _ => []
  | kv :: rest, k, f =>
    if kv.1 == k then (kv.1, f kv.2) :: aupdate rest k f else kv :: aupdate rest k f

/-- One iteration of the record loop of `NewReporter`:
`totals[rec.Project] = totals[rec.Project] + rec.Duration()`.  The reporter
supplies no clipping window, so the record's active duration is taken over
the unbounded window (`util.NoTime` bounds). -/
def addRecord (now : Nat) (totals : List (String × Int)) (rec : Record) :
    List (String × Int) :=
  if (alookup totals rec.Project).isSome then
    aupdate totals rec.Project (fun v => v + rec.Duration now 0 0)
  else
    totals ++ [(rec.Project, rec.Duration now 0 0)]

/-- The record loop of `NewReporter` over the scanned records, in scan
order. -/
def accumulate (now : Nat) (records : List Record) (totals : List (String × Int)) :
    List (String × Int) :=
  records.foldl (addRecord now) totals

lemma alookup_aupdate (m : List (String × Int)) (k p : String) (f : Int → Int) :
    alookup (aupdate m k f) p =
      if p = k then (alookup m k).map f else alookup m p := by
  induction m with
  | nil => simp [alookup, aupdate]
  | cons kv rest ih =>
    by_cases hk : kv.1 = k
    · by_cases hpk : p = k
      · subst hpk
        simp [alookup, aupdate, hk]
      · have hp : ¬ kv.1 = p := fun h => hpk (h.symm.trans hk)
        have hkp : ¬ k = p := fun h => hpk h.symm
        simp [alookup, aupdate, hk, hp, hpk, hkp, ih]
    · by_cases hpk : p = k
      · subst hpk
        simp [alookup, aupdate, hk, ih]
      · simp [alookup, aupdate, hk, hpk, ih]

lemma alookup_append_single (m : List (String × Int)) (k p : String) (v : Int) :
    alookup (m ++ [(k, v)]) p =
      if (alookup m p).isSome then alookup m p
      else if p = k then some v else none := by
  induction m with
  | nil =>
    by_cases h : p = k
    · subst h
      simp [alookup]
    · have h2 : ¬ (k = p) := fun hh => h hh.symm
      simp [alookup, h, h2]
  | cons kv rest ih =>
    by_cases hp : kv.1 = p
    · simp [alookup, hp]
    · simp [alookup, hp, ih]

lemma alookupD_addRecord (now : Nat) (totals : List (String × Int)) (rec : Record)
    (p : String) :
    alookupD (addRecord now totals rec) p
      = alookupD totals p + (if rec.Project = p then rec.Duration now 0 0 else 0) := by
  unfold addRecord
  by_cases hs : (alookup totals rec.Project).isSome
  · rw [if_pos hs]
    unfold alookupD
    rw [alookup_aupdate]
    by_cases hp : p = rec.Project
    · subst hp
      obtain ⟨x, hx⟩ := Option.isSome_iff_exists.mp hs
      simp [hx]
    · have hp2 : ¬ rec.Project = p := fun h => hp h.symm
      simp [hp, hp2]
  · rw [if_neg hs]
    unfold alookupD
    rw [alookup_append_single]
    by_cases hp : p = rec.Project
    · subst hp
      rw [Option.not_isSome_iff_eq_none] at hs
      simp [hs]
    · have hp2 : ¬ rec.Project = p := fun h => hp h.symm
      cases hopt : alookup totals p with
      | some x => simp [hopt, hp2]
      | none => simp [hopt, hp, hp2]

lemma accumulate_alookupD (now : Nat) (records : List Record) :
    ∀ (totals : List (String × Int)) (p : String),
      alookupD (accumulate now records totals) p
        = alookupD totals p
          + ((records.filter (fun r => r.Project == p)).map
              (fun r => r.Duration now 0 0)).sum := by
  induction records with
  | nil => intro totals p; simp [accumulate]
  | cons r rest ih =>
    intro totals p
    have hstep : accumulate now (r :: rest) totals
        = accumulate now rest (addRecord now totals r) := rfl
    rw [hstep, ih, alookupD_addRecord]
    by_cases hp : r.Project = p
    · simp [List.filter_cons, hp]
      omega
    · simp [List.filter_cons, hp]

/-- Claim C2: in `NewReporter`'s record loop, the amount added to a record's
per-project accumulator is exactly the record's active duration — total span
minus pause time — over the report's window; `NewReporter` supplies no
window (`util.NoTime` bounds), so the duration is unclipped.  Stated over
the whole loop: each project's accumulated value grows by the sum of the
active durations of exactly the records carrying that project name. -/
theorem claim_C2_reportAccumulation :
    ∀ (now : Nat) (totals : List (String × Int)) (records : List Record) (p : String),
      alookupD (accumulate now records totals) p
        = alookupD totals p
          + ((records.filter (fun r => r.Project == p)).map
              (fun r => r.Duration now 0 0)).sum
      ∧ ∀ r : Record,
          r.Duration now 0 0
            = (r.TotalDuration now 0 0 : Int) - (r.PauseDuration now 0 0 : Int) :=
  fun now totals records p =>
    ⟨accumulate_alookupD now records totals p, fun _ => rfl⟩

/-! ## Project tree and the roll-up loop of `NewReporter` -/

/-- Modelled from the spec: `ProjectTree.Ancestors` (the project tree code is
not among the given sources).  The ancestors of a project, nearest first,
obtained by following parent names through the flat project snapshot; fuel
bounds the walk by the number of projects. -/
def ancestorsFuel (ps : List Project) : Nat → String → List Project
  | 0, _ => []
  | fuel + 1, name =>
    match ps.find? (fun p => p.name == name) with
    | none => []
    | some p =>
      match ps.find? (fun q => q.name == p.parent) with
      | none => []
      | some par => par :: ancestorsFuel ps fuel par.name

/-- Modelled from the spec: nearest-ancestor-first ancestor list. -/
def ancestors (ps : List Project) (name : String) : List Project :=
  ancestorsFuel ps ps.length name

/-- One iteration of the roll-up loop of `NewReporter` for one project key:
for each ancestor present in the totals map, add the project's *current*
total (as the Go code does — not its direct total) into the ancestor's
accumulator. -/
def rollupStep (ps : List Project) (totals : List (String × Int)) (project : String) :
    List (String × Int) :=
  (ancestors ps project).foldl
    (fun t node =>
      if (alookup t node.name).isSome then
        aupdate t node.name (fun v => v + alookupD t project)
      else t)
    totals

/-- The roll-up loop of `NewReporter` (`for project := range totals`), with
the unspecified Go map iteration order supplied explicitly. -/
def rollup (ps : List Project) (order : List String) (totals : List (String × Int)) :
    List (String × Int) :=
  order.foldl (rollupStep ps) totals

/-- `NewReporter`'s per-project totals for an empty requested subset (the
effective set is the full project snapshot): filter the records to the
effective set, accumulate direct durations, then roll up along ancestors in
the given map-iteration order. -/
def newReporterTotals (allProjects : List Project) (records : List Record)
    (order : List String) (now : Nat) : List (String × Int) :=
  let keys := allProjects.map (fun p => p.name)
  let recs := records.filter (fun r => keys.contains r.Project)
  let totals0 := allProjects.map (fun p => (p.name, (0 : Int)))
  rollup allProjects order (accumulate now recs totals0)

/-- Depth-3 project chain: `c` is a child of `b`, which is a child of the
root `a`. -/
def c1Projects : List Project :=
  [{ name := "a", parent := "", archived := false },
   { name := "b", parent := "a", archived := false },
   { name := "c", parent := "b", archived := false }]

/-- A single record of 60 minutes on the leaf project `c`. -/
def c1Records : List Record :=
  [{ Project := "c", Start := 600, End := 660, Note := "", Tags := [], Pause := [] }]

/-- The direct (pre-roll-up) accumulator for the depth-3 example. -/
def c1Direct : List (String × Int) :=
  accumulate 0 (c1Records.filter
    (fun r => (c1Projects.map (fun p => p.name)).contains r.Project))
    (c1Projects.map (fun p => (p.name, (0 : Int))))

/-- Claim C1 fails on the code: with the map-iteration order `c, b, a` —
admissible for Go's unspecified `range` order — the roll-up adds `c`'s total
into `b` and `a`, and then adds `b`'s *already rolled-up* total into `a`
again, so `Totals[a] = 120` although `a`'s direct time is `0` and
`Totals[b] = 60`; the ancestor-first order `a, b, c` yields the claimed
`Totals[a] = 60`, exhibiting the order dependence. -/
theorem claim_C1_rollup_order_bug :
    alookupD c1Direct "a" = 0
    ∧ alookupD c1Direct "b" = 0
    ∧ alookupD c1Direct "c" = 60
    ∧ alookupD (newReporterTotals c1Projects c1Records ["c", "b", "a"] 0) "b" = 60
    ∧ alookupD (newReporterTotals c1Projects c1Records ["c", "b", "a"] 0) "a" = 120
    ∧ alookupD (newReporterTotals c1Projects c1Records ["c", "b", "a"] 0) "a"
        ≠ alookupD c1Direct "a"
          + alookupD (newReporterTotals c1Projects c1Records ["c", "b", "a"] 0) "b"
    ∧ alookupD (newReporterTotals c1Projects c1Records ["a", "b", "c"] 0) "a" = 60 := by
  refine ⟨?_, ?_, ?_, ?_, ?_, ?_, ?_⟩ <;> decide

/-! ## `Track.LoadRecord` -/

/-- Failure of the underlying `os.ReadFile`.  A `*os.PathError` wraps every
path-scoped failure of `os.Open`: `notExist = true` models a missing file
(`ENOENT`), `notExist = false` models any other path-scoped failure, e.g.
permission denied (`EACCES`).  `other` models an I/O failure that is not a
`*os.PathError`. -/
inductive OsErr where
  | pathErr (notExist : Bool)
  | other
deriving DecidableEq, Repr

/-- Errors surfaced by `LoadRecord`. -/
inductive LoadErr where
  | recordNotFound
  | ioErr (e : OsErr)
  | deserializeErr (msg : String)
deriving DecidableEq, Repr

/-- `Track.LoadRecord` from the source, with the filesystem abstracted to
the outcome of `os.ReadFile` at the record's path and the deserializer taken
as a parameter.  The Go code maps *any* `*os.PathError` — the type assertion
`err.(*os.PathError)` — to `ErrRecordNotFound` and returns every other read
error unchanged; a deserialization failure is returned as its own error. -/
def loadRecord (readResult : Except OsErr String)
    (deserialize : String → Except String Record) : Except LoadErr Record :=
  match readResult with
  | Except.error e =>
    match e with
    | OsErr.pathErr _ => Except.error LoadErr.recordNotFound
    | OsErr.other => Except.error (LoadErr.ioErr OsErr.other)
  | Except.ok s =>
    match deserialize s with
    | Except.error m => Except.error (LoadErr.deserializeErr m)
    | Except.ok r => Except.ok r

/-- Claim C6 fails on the code: a read failure that is a path error but not
"file does not exist" — e.g. permission denied on an existing file — is
reported as `ErrRecordNotFound`, because the code classifies by the Go error
*type* `*os.PathError`, which covers permission errors too. -/
theorem claim_C6_counterexample :
    loadRecord (Except.error (OsErr.pathErr false))
        (fun _ => Except.error "unused")
      = Except.error LoadErr.recordNotFound := rfl

/-- Claim C6, amended: `LoadRecord` fails with `NotFound` exactly when the
read fails with a `*os.PathError` — which covers the missing-file case but
also any other path-scoped failure such as permission denied; only read
failures that are not path errors (and deserialization failures) surface as
distinct, non-`NotFound` errors. -/
theorem claim_C6_loadRecord_errors :
    ∀ (res : Except OsErr String) (de : String → Except String Record),
      (loadRecord res de = Except.error LoadErr.recordNotFound
        ↔ ∃ b, res = Except.error (OsErr.pathErr b))
      ∧ loadRecord (Except.error OsErr.other) de
          = Except.error (LoadErr.ioErr OsErr.other)
      ∧ ∀ s r, res = Except.ok s → de s = Except.ok r →
          loadRecord res de = Except.ok r := by
  intro res de
  refine ⟨?_, rfl, ?_⟩
  · cases res with
    | error e =>
      cases e with
      | pathErr b => simp [loadRecord]
      | other => simp [loadRecord]
    | ok s =>
      cases hd : de s with
      | error m => simp [loadRecord, hd]
      | ok r => simp [loadRecord, hd]
  · intro s r hres hde
    subst hres
    simp [loadRecord, hde]

/-- Witness for C6 (amended) at concrete inputs: a missing file is reported
as `NotFound`, and a non-path I/O failure is not. -/
theorem claim_C6_loadRecord_errors_witness :
    loadRecord (Except.error (OsErr.pathErr true)) (fun _ => Except.error "u")
      = Except.error LoadErr.recordNotFound
    ∧ loadRecord (Except.error OsErr.other) (fun _ => Except.error "u")
      = Except.error (LoadErr.ioErr OsErr.other) :=
  ⟨(claim_C6_loadRecord_errors (Except.error (OsErr.pathErr true))
      (fun _ => Except.error "u")).1.mpr ⟨true, rfl⟩,
   (claim_C6_loadRecord_errors (Except.error OsErr.other)
      (fun _ => Except.error "u")).2.1⟩

/-! ## Record store layout and `Track.DeleteRecord`

The records tree `<records>/<YYYY>/<MM>/<DD>/<file>` is modelled as a set of
files (year, month, day, file-name) plus a set of directories (paths of
numeric segments).  `time.Time`'s calendar is modelled uniformly (31-day
months, 12-month years, minutes as the unit), which preserves the properties
the code relies on: the path of a record is derived deterministically and
injectively from its start time, and date order agrees with instant order. -/

def minutesPerDay : Nat := 1440

def daysPerMonth : Nat := 31

def monthsPerYear : Nat := 12

/-- Minute of the day of an instant (the record's file name). -/
def timeOfDay (t : Nat) : Nat := t % minutesPerDay

/-- Absolute day number of an instant. -/
def dayIndex (t : Nat) : Nat := t / minutesPerDay

/-- Day-of-month (1-based) of an instant. -/
def dayOfTime (t : Nat) : Nat := dayIndex t % daysPerMonth + 1

/-- Month (1-based) of an instant. -/
def monthOfTime (t : Nat) : Nat := (dayIndex t / daysPerMonth) % monthsPerYear + 1

/-- Year of an instant. -/
def yearOfTime (t : Nat) : Nat := dayIndex t / (daysPerMonth * monthsPerYear)

/-- `util.ToDate`: strip the time of day. -/
def toDate (t : Nat) : Nat := dayIndex t * minutesPerDay

/-- `util.Date`: the instant at midnight of the given calendar date. -/
def dateOf (y m d : Nat) : Nat :=
  ((y * monthsPerYear + (m - 1)) * daysPerMonth + (d - 1)) * minutesPerDay

/-- A record file's path components: year, month, day, file name. -/
abbrev RPath := Nat × Nat × Nat × Nat

/-- The records tree of one workspace: files and directories. -/
structure FsState where
  files : List RPath
  dirs : List (List Nat)
deriving DecidableEq, Repr

/-- `t.RecordPath(tm)`: year/month/day directory plus time-of-day file
name. -/
def recordPathOf (tm : Nat) : RPath :=
  (yearOfTime tm, monthOfTime tm, dayOfTime tm, timeOfDay tm)

/-- Directory containing a record file. -/
def dirOfFile (p : RPath) : List Nat := [p.1, p.2.1, p.2.2.1]

/-- `fs.FileExists`. -/
def fileExists (fs : FsState) (p : RPath) : Bool := fs.files.contains p

/-- `fs.DirIsEmpty`: the directory has no direct child file and no direct
child directory. -/
def dirIsEmpty (fs : FsState) (d : List Nat) : Bool :=
  fs.files.all (fun f => !(dirOfFile f == d))
  && fs.dirs.all (fun q => !(q.length == d.length + 1 && d.isPrefixOf q))

/-- `os.Remove` on a file. -/
def removeFile (fs : FsState) (p : RPath) : FsState :=
  { fs with files := fs.files.filter (fun q => !(q == p)) }

/-- `os.Remove` on a directory. -/
def removeDir (fs : FsState) (d : List Nat) : FsState :=
  { fs with dirs := fs.dirs.filter (fun q => !(q == d)) }

/-- The day directory of a record's path (`filepath.Dir(path)`). -/
def dayDirOf (tm : Nat) : List Nat := dirOfFile (recordPathOf tm)

/-- The month directory (`filepath.Dir(dayDir)`; `filepath.Dir` is
`List.dropLast` on the segment list). -/
def monthDirOf (tm : Nat) : List Nat := (dayDirOf tm).dropLast

/-- The year directory (`filepath.Dir(monthDir)`). -/
def yearDirOf (tm : Nat) : List Nat := (monthDirOf tm).dropLast

/-- State after `os.Remove(path)` in `DeleteRecord`. -/
def delFs1 (fs : FsState) (tm : Nat) : FsState := removeFile fs (recordPathOf tm)

/-- The `DirIsEmpty(dayDir)` test of `DeleteRecord`. -/
def delC1 (fs : FsState) (tm : Nat) : Bool := dirIsEmpty (delFs1 fs tm) (dayDirOf tm)

/-- State after `os.Remove(dayDir)`. -/
def delFs2 (fs : FsState) (tm : Nat) : FsState := removeDir (delFs1 fs tm) (dayDirOf tm)

/-- The `DirIsEmpty(monthDir)` test. -/
def delC2 (fs : FsState) (tm : Nat) : Bool := dirIsEmpty (delFs2 fs tm) (monthDirOf tm)

/-- State after `os.Remove(monthDir)`. -/
def delFs3 (fs : FsState) (tm : Nat) : FsState := removeDir (delFs2 fs tm) (monthDirOf tm)

/-- The `DirIsEmpty(yearDir)` test. -/
def delC3 (fs : FsState) (tm : Nat) : Bool := dirIsEmpty (delFs3 fs tm) (yearDirOf tm)

/-- `Track.DeleteRecord` from the source: fail if the file is absent;
otherwise remove it, then remove the day directory if now empty, then the
month directory if now empty, then the year directory if now empty (strict
bottom-up cascade). -/
def deleteRecord (fs : FsState) (tm : Nat) : Except String FsState :=
  if ¬ fileExists fs (recordPathOf tm) then Except.error "record does not exist"
  else if delC1 fs tm then
    if delC2 fs tm then
      if delC3 fs tm then Except.ok (removeDir (delFs3 fs tm) (yearDirOf tm))
      else Except.ok (delFs3 fs tm)
    else Except.ok (delFs2 fs tm)
  else Except.ok (delFs1 fs tm)

/-- Every file's ancestor directories exist. -/
def FsWellFormed (fs : FsState) : Prop :=
  ∀ f ∈ fs.files,
    [f.1] ∈ fs.dirs ∧ [f.1, f.2.1] ∈ fs.dirs ∧ dirOfFile f ∈ fs.dirs

lemma removeFile_files (fs : FsState) (p q : RPath) :
    q ∈ (removeFile fs p).files ↔ q ∈ fs.files ∧ q ≠ p := by
  simp [removeFile, List.mem_filter]

lemma removeDir_dirs (fs : FsState) (d : List Nat) (q : List Nat) :
    q ∈ (removeDir fs d).dirs ↔ q ∈ fs.dirs ∧ q ≠ d := by
  simp [removeDir, List.mem_filter]

lemma dirIsEmpty_false_of_childDir (fs : FsState) (d q : List Nat)
    (hq : q ∈ fs.dirs) (hlen : q.length = d.length + 1) (hpre : d <+: q) :
    dirIsEmpty fs d = false := by
  unfold dirIsEmpty
  rw [Bool.and_eq_false_iff]
  right
  rw [List.all_eq_false]
  refine ⟨q, hq, ?_⟩
  simp [hlen, List.isPrefixOf_iff_prefix.mpr hpre]

lemma dirIsEmpty_false_of_childFile (fs : FsState) (d : List Nat) (f : RPath)
    (hf : f ∈ fs.files) (hd : dirOfFile f = d) :
    dirIsEmpty fs d = false := by
  unfold dirIsEmpty
  rw [Bool.and_eq_false_iff]
  left
  rw [List.all_eq_false]
  exact ⟨f, hf, by simp [hd]⟩

lemma fileExists_iff (fs : FsState) (p : RPath) :
    fileExists fs p = true ↔ p ∈ fs.files := by
  simp [fileExists]

lemma dayDirOf_eq (tm : Nat) :
    dayDirOf tm = [(recordPathOf tm).1, (recordPathOf tm).2.1, (recordPathOf tm).2.2.1] :=
  rfl

lemma monthDirOf_eq (tm : Nat) :
    monthDirOf tm = [(recordPathOf tm).1, (recordPathOf tm).2.1] :=
  rfl

lemma yearDirOf_eq (tm : Nat) : yearDirOf tm = [(recordPathOf tm).1] :=
  rfl

lemma monthDir_ne_dayDir (tm : Nat) : monthDirOf tm ≠ dayDirOf tm := by
  rw [monthDirOf_eq, dayDirOf_eq]
  simp

lemma yearDir_ne_dayDir (tm : Nat) : yearDirOf tm ≠ dayDirOf tm := by
  rw [yearDirOf_eq, dayDirOf_eq]
  simp

lemma yearDir_ne_monthDir (tm : Nat) : yearDirOf tm ≠ monthDirOf tm := by
  rw [yearDirOf_eq, monthDirOf_eq]
  simp

/-- A sibling record file in the same month (and its day directory, present
by well-formedness) keeps the month directory non-empty at the point where
`DeleteRecord` tests it. -/
lemma sibling_blocks_month (fs : FsState) (tm : Nat) (q : RPath)
    (hwf : FsWellFormed fs) (hq : q ∈ fs.files) (hqp : q ≠ recordPathOf tm)
    (h1 : q.1 = (recordPathOf tm).1) (h2 : q.2.1 = (recordPathOf tm).2.1)
    (hc1 : delC1 fs tm = true) :
    delC2 fs tm = false := by
  by_cases hdq : dirOfFile q = dayDirOf tm
  · exfalso
    have hq1 : q ∈ (delFs1 fs tm).files :=
      (removeFile_files fs (recordPathOf tm) q).mpr ⟨hq, hqp⟩
    have := dirIsEmpty_false_of_childFile (delFs1 fs tm) (dayDirOf tm) q hq1 hdq
    rw [delC1] at hc1
    rw [this] at hc1
    cases hc1
  · have hdirs : dirOfFile q ∈ fs.dirs := (hwf q hq).2.2
    have hq2 : dirOfFile q ∈ (delFs2 fs tm).dirs := by
      rw [delFs2, removeDir_dirs]
      exact ⟨hdirs, hdq⟩
    rw [delC2]
    apply dirIsEmpty_false_of_childDir _ _ _ hq2
    · rw [monthDirOf_eq]
      simp [dirOfFile]
    · rw [monthDirOf_eq, dirOfFile]
      exact ⟨[q.2.2.1], by simp [h1, h2]⟩

/-- Claim C7: `DeleteRecord` fails with a not-exists error when the file is
absent; otherwise it removes exactly that file, removes the day directory
iff it is then empty, the month directory iff the day directory was removed
and it is then empty, the year directory iff the month directory was removed
and it is then empty (strict bottom-up order), touches no other directory,
and a sibling record in the same month prevents removal of the month and
year directories. -/
theorem claim_C7_deleteRecord :
    ∀ (fs : FsState) (tm : Nat),
      (fileExists fs (recordPathOf tm) = false →
        deleteRecord fs tm = Except.error "record does not exist")
      ∧ (fileExists fs (recordPathOf tm) = true →
          ∃ fs', deleteRecord fs tm = Except.ok fs'
            ∧ fs'.files = fs.files.filter (fun q => !(q == recordPathOf tm))
            ∧ (∀ q ∈ fs'.dirs, q ∈ fs.dirs)
            ∧ (∀ q : List Nat, q ≠ dayDirOf tm → q ≠ monthDirOf tm →
                q ≠ yearDirOf tm → (q ∈ fs'.dirs ↔ q ∈ fs.dirs))
            ∧ (dayDirOf tm ∈ fs'.dirs ↔
                dayDirOf tm ∈ fs.dirs ∧ delC1 fs tm = false)
            ∧ (monthDirOf tm ∈ fs'.dirs ↔
                monthDirOf tm ∈ fs.dirs
                ∧ ¬(delC1 fs tm = true ∧ delC2 fs tm = true))
            ∧ (yearDirOf tm ∈ fs'.dirs ↔
                yearDirOf tm ∈ fs.dirs
                ∧ ¬(delC1 fs tm = true ∧ delC2 fs tm = true ∧ delC3 fs tm = true))
            ∧ (FsWellFormed fs →
                ∀ q ∈ fs.files, q ≠ recordPathOf tm →
                  q.1 = (recordPathOf tm).1 → q.2.1 = (recordPathOf tm).2.1 →
                  monthDirOf tm ∈ fs'.dirs ∧ yearDirOf tm ∈ fs'.dirs)) := by
  intro fs tm
  constructor
  · intro h
    rw [deleteRecord, if_pos]
    rw [h]
    simp
  · intro h
    have hp : recordPathOf tm ∈ fs.files := (fileExists_iff fs (recordPathOf tm)).mp h
    have hnot : ¬ ¬ fileExists fs (recordPathOf tm) = true := by rw [h]; simp
    have hd1 : (delFs1 fs tm).dirs = fs.dirs := rfl
    by_cases hc1 : delC1 fs tm = true
    · by_cases hc2 : delC2 fs tm = true
      · by_cases hc3 : delC3 fs tm = true
        · refine ⟨removeDir (delFs3 fs tm) (yearDirOf tm), ?_, rfl, ?_, ?_, ?_, ?_, ?_, ?_⟩
          · rw [deleteRecord, if_neg hnot, if_pos hc1, if_pos hc2, if_pos hc3]
          · intro q hq
            rw [removeDir_dirs] at hq
            rw [delFs3, removeDir_dirs] at hq
            rw [delFs2, removeDir_dirs, hd1] at hq
            exact hq.1.1.1
          · intro q hqd hqm hqy
            rw [removeDir_dirs, delFs3, removeDir_dirs, delFs2, removeDir_dirs, hd1]
            constructor
            · exact fun hh => hh.1.1.1
            · exact fun hh => ⟨⟨⟨hh, hqd⟩, hqm⟩, hqy⟩
          · rw [removeDir_dirs, delFs3, removeDir_dirs, delFs2, removeDir_dirs, hd1]
            constructor
            · rintro ⟨⟨⟨-, hdd⟩, -⟩, -⟩
              exact absurd rfl hdd
            · rintro ⟨-, hfalse⟩
              rw [hc1] at hfalse
              cases hfalse
          · rw [removeDir_dirs, delFs3, removeDir_dirs, delFs2, removeDir_dirs, hd1]
            constructor
            · rintro ⟨⟨-, hmm⟩, -⟩
              exact absurd rfl hmm
            · rintro ⟨-, hno⟩
              exact absurd ⟨hc1, hc2⟩ hno
          · rw [removeDir_dirs, delFs3, removeDir_dirs, delFs2, removeDir_dirs, hd1]
            constructor
            · rintro ⟨-, hyy⟩
              exact absurd rfl hyy
            · rintro ⟨-, hno⟩
              exact absurd ⟨hc1, hc2, hc3⟩ hno
          · intro hwf q hq hqp h1 h2
            exact absurd hc2 (by rw [sibling_blocks_month fs tm q hwf hq hqp h1 h2 hc1]; simp)
        · refine ⟨delFs3 fs tm, ?_, rfl, ?_, ?_, ?_, ?_, ?_, ?_⟩
          · rw [deleteRecord, if_neg hnot, if_pos hc1, if_pos hc2, if_neg hc3]
          · intro q hq
            rw [delFs3, removeDir_dirs, delFs2, removeDir_dirs, hd1] at hq
            exact hq.1.1
          · intro q hqd hqm _
            rw [delFs3, removeDir_dirs, delFs2, removeDir_dirs, hd1]
            constructor
            · exact fun hh => hh.1.1
            · exact fun hh => ⟨⟨hh, hqd⟩, hqm⟩
          · rw [delFs3, removeDir_dirs, delFs2, removeDir_dirs, hd1]
            constructor
            · rintro ⟨⟨-, hdd⟩, -⟩
              exact absurd rfl hdd
            · rintro ⟨-, hfalse⟩
              rw [hc1] at hfalse
              cases hfalse
          · rw [delFs3, removeDir_dirs, delFs2, removeDir_dirs, hd1]
            constructor
            · rintro ⟨-, hmm⟩
              exact absurd rfl hmm
            · rintro ⟨-, hno⟩
              exact absurd ⟨hc1, hc2⟩ hno
          · rw [delFs3, removeDir_dirs, delFs2, removeDir_dirs, hd1]
            constructor
            · rintro ⟨⟨hy, -⟩, -⟩
              exact ⟨hy, fun hh => hc3 hh.2.2⟩
            · rintro ⟨hy, -⟩
              exact ⟨⟨hy, yearDir_ne_dayDir tm⟩, yearDir_ne_monthDir tm⟩
          · intro hwf q hq hqp h1 h2
            exact absurd hc2 (by rw [sibling_blocks_month fs tm q hwf hq hqp h1 h2 hc1]; simp)
      · refine ⟨delFs2 fs tm, ?_, rfl, ?_, ?_, ?_, ?_, ?_, ?_⟩
        · rw [deleteRecord, if_neg hnot, if_pos hc1, if_neg hc2]
        · intro q hq
          rw [delFs2, removeDir_dirs, hd1] at hq
          exact hq.1
        · intro q hqd _ _
          rw [delFs2, removeDir_dirs, hd1]
          constructor
          · exact fun hh => hh.1
          · exact fun hh => ⟨hh, hqd⟩
        · rw [delFs2, removeDir_dirs, hd1]
          constructor
          · rintro ⟨-, hdd⟩
            exact absurd rfl hdd
          · rintro ⟨-, hfalse⟩
            rw [hc1] at hfalse
            cases hfalse
        · rw [delFs2, removeDir_dirs, hd1]
          constructor
          · rintro ⟨hm, -⟩
            exact ⟨hm, fun hh => hc2 hh.2⟩
          · rintro ⟨hm, -⟩
            exact ⟨hm, monthDir_ne_dayDir tm⟩
        · rw [delFs2, removeDir_dirs, hd1]
          constructor
          · rintro ⟨hy, -⟩
            exact ⟨hy, fun hh => hc2 hh.2.1⟩
          · rintro ⟨hy, -⟩
            exact ⟨hy, yearDir_ne_dayDir tm⟩
        · intro hwf q hq hqp h1 h2
          rw [delFs2, removeDir_dirs, hd1, removeDir_dirs, hd1]
          refine ⟨⟨(hwf _ hp).2.1, monthDir_ne_dayDir tm⟩,
                  ⟨(hwf _ hp).1, yearDir_ne_dayDir tm⟩⟩
    · refine ⟨delFs1 fs tm, ?_, rfl, ?_, ?_, ?_, ?_, ?_, ?_⟩
      · rw [deleteRecord, if_neg hnot, if_neg hc1]
      · intro q hq
        rw [hd1] at hq
        exact hq
      · intro q _ _ _
        rw [hd1]
      · rw [hd1]
        constructor
        · intro hh
          exact ⟨hh, by simpa using hc1⟩
        · exact fun hh => hh.1
      · rw [hd1]
        constructor
        · intro hh
          exact ⟨hh, fun hh2 => hc1 hh2.1⟩
        · exact fun hh => hh.1
      · rw [hd1]
        constructor
        · intro hh
          exact ⟨hh, fun hh2 => hc1 hh2.1⟩
        · exact fun hh => hh.1
      · intro hwf q hq hqp h1 h2
        rw [hd1]
        exact ⟨(hwf _ hp).2.1, (hwf _ hp).1⟩

/-- Concrete store for the C7 witness: two records in the same month (May
2023) on different days. -/
def fs0 : FsState :=
  { files := [(2023, 5, 10, 300), (2023, 5, 11, 400)],
    dirs := [[2023], [2023, 5], [2023, 5, 10], [2023, 5, 11]] }

/-- Start instant of the first record of `fs0` (May 10 2023, minute 300 of
the day, in the model's uniform calendar). -/
def tm0 : Nat := dateOf 2023 5 10 + 300

/-- Witness for C7: deleting the sole record of its day succeeds, and the
sibling record in the same month keeps the month and year directories. -/
theorem claim_C7_deleteRecord_witness :
    fileExists fs0 (recordPathOf tm0) = true
    ∧ ∃ fs', deleteRecord fs0 tm0 = Except.ok fs'
        ∧ monthDirOf tm0 ∈ fs'.dirs ∧ yearDirOf tm0 ∈ fs'.dirs := by
  refine ⟨by decide, ?_⟩
  obtain ⟨fs', h1, -, -, -, -, -, -, hsib⟩ :=
    (claim_C7_deleteRecord fs0 tm0).2 (by decide)
  exact ⟨fs', h1,
    hsib (by unfold FsWellFormed; decide) (2023, 5, 11, 400)
      (by decide) (by decide) (by decide) (by decide)⟩

/-! ## Filtered scanner (`Track.AllRecordsFiltered`) and `FindLatestRecord`

The records tree is modelled structurally: year directories containing month
directories containing day directories containing that day's record files in
name order.  `ioutil.ReadDir` returns listings name-sorted ascending;
`util.Reverse` flips a listing in reverse mode.  The Go producer pushes the
yielded records into a channel and checks a cancellation signal before each
push; the embedding is the pushed sequence, and a consumer that takes one
item and cancels corresponds to `List.head?`. -/

/-- A day directory: day-of-month and its record files in name order. -/
structure DayDir where
  day : Nat
  recs : List Record
deriving Repr

/-- A month directory. -/
structure MonthDir where
  month : Nat
  days : List DayDir
deriving Repr

/-- A year directory. -/
structure YearDir where
  year : Nat
  months : List MonthDir
deriving Repr

/-- `FilterFunctions` in its struct form: the filter functions plus the
inclusive date bounds used for directory pruning (`0` = unbounded). -/
structure FilterFns where
  functions : List (Record → Bool)
  Start : Nat
  End : Nat

/-- A directory listing, reversed in reverse mode (`util.Reverse`). -/
def maybeReverse {α : Type} (reversed : Bool) (l : List α) : List α :=
  if reversed then l.reverse else l

lemma maybeReverse_true {α : Type} (l : List α) : maybeReverse true l = l.reverse := rfl

lemma maybeReverse_false {α : Type} (l : List α) : maybeReverse false l = l := rfl

/-- `LoadDateRecordsFiltered` on the data model: the day's records in file
name order, filtered. -/
def loadDateRecordsFiltered (dd : DayDir) (fl : FilterFns) : List Record :=
  dd.recs.filter (fun r => filterAll r fl.functions)

/-- `Track.AllRecordsFiltered` from the source, as the sequence of records
the scan yields in order: years, then months, then days, then the records
within a day, each listing reversed in reverse mode; whole year branches
outside the year bounds and whole day branches outside the date bounds are
pruned before any record is loaded (the source prunes at the year and day
levels only). -/
def allRecordsFiltered (store : List YearDir) (fl : FilterFns) (reversed : Bool) :
    List Record :=
  (maybeReverse reversed store).flatMap (fun yd =>
    if fl.Start ≠ 0 ∧ yd.year < yearOfTime fl.Start then [] else
    if fl.End ≠ 0 ∧ yearOfTime fl.End < yd.year then [] else
    (maybeReverse reversed yd.months).flatMap (fun md =>
      (maybeReverse reversed md.days).flatMap (fun dd =>
        if fl.Start ≠ 0 ∧ dateOf yd.year md.month dd.day < toDate fl.Start then []
        else if fl.End ≠ 0 ∧ fl.End < dateOf yd.year md.month dd.day then []
        else maybeReverse reversed (loadDateRecordsFiltered dd fl))))

/-- `Track.FindLatestRecord` from the source: a reverse scan with the
condition as the only filter and no date bounds, consumed for exactly its
first element (the Go consumer takes one result, closes the `stop` channel
and returns; `nil` when the scan yields nothing). -/
def findLatestRecord (store : List YearDir) (cond : Record → Bool) : Option Record :=
  (allRecordsFiltered store { functions := [cond], Start := 0, End := 0 } true).head?

/-- All records of the store in forward traversal order. -/
def flattenStore (store : List YearDir) : List Record :=
  store.flatMap (fun yd => yd.months.flatMap (fun md => md.days.flatMap (fun dd => dd.recs)))

/-- Chronological well-formedness of a store: the forward traversal lists
records in strictly increasing start order (records live in the directory of
their start date, file names sort by time of day, and start times are unique
as the record's primary key). -/
def sortedByStart : List Record → Bool
  | [] => true
  | [_] => true
  | a :: b :: rest => decide (a.Start < b.Start) && sortedByStart (b :: rest)

lemma sortedByStart_pairwise :
    ∀ l : List Record, sortedByStart l = true →
      List.Pairwise (fun a b : Record => a.Start < b.Start) l := by
  intro l
  induction l with
  | nil => intro; exact List.Pairwise.nil
  | cons a rest ih =>
    cases rest with
    | nil => intro; exact List.pairwise_singleton _ _
    | cons b rest2 =>
      intro h
      rw [sortedByStart, Bool.and_eq_true, decide_eq_true_eq] at h
      have hp := ih h.2
      refine List.Pairwise.cons ?_ hp
      intro x hx
      rcases List.mem_cons.mp hx with rfl | hx2
      · exact h.1
      · have := (List.pairwise_cons.mp hp).1 x hx2
        omega

/-- The reversed scan yields exactly the reverse of the forward scan: years,
months, days and records within a day are all visited in descending order. -/
lemma allRecordsFiltered_reverse (store : List YearDir) (fl : FilterFns) :
    allRecordsFiltered store fl true = (allRecordsFiltered store fl false).reverse := by
  unfold allRecordsFiltered
  simp only [maybeReverse_true, maybeReverse_false]
  rw [List.reverse_flatMap]
  apply List.flatMap_congr
  intro yd _
  simp only [Function.comp_apply]
  by_cases h1 : fl.Start ≠ 0 ∧ yd.year < yearOfTime fl.Start
  · simp [h1]
  · rw [if_neg h1, if_neg h1]
    by_cases h2 : fl.End ≠ 0 ∧ yearOfTime fl.End < yd.year
    · simp [h2]
    · rw [if_neg h2, if_neg h2, List.reverse_flatMap]
      apply List.flatMap_congr
      intro md _
      simp only [Function.comp_apply]
      rw [List.reverse_flatMap]
      apply List.flatMap_congr
      intro dd _
      simp only [Function.comp_apply]
      by_cases h3 : fl.Start ≠ 0 ∧ dateOf yd.year md.month dd.day < toDate fl.Start
      · simp [h3]
      · rw [if_neg h3, if_neg h3]
        by_cases h4 : fl.End ≠ 0 ∧ fl.End < dateOf yd.year md.month dd.day
        · simp [h4]
        · rw [if_neg h4, if_neg h4]

/-- With zero date bounds nothing is pruned: the forward scan is the
flattened store filtered by the filter functions. -/
lemma allRecordsFiltered_noBounds (store : List YearDir) (fs : List (Record → Bool)) :
    allRecordsFiltered store { functions := fs, Start := 0, End := 0 } false
      = (flattenStore store).filter (fun r => filterAll r fs) := by
  unfold allRecordsFiltered flattenStore
  simp only [maybeReverse_false]
  rw [List.filter_flatMap]
  apply List.flatMap_congr
  intro yd _
  simp only [ne_eq, not_true_eq_false, false_and, if_false]
  rw [List.filter_flatMap]
  apply List.flatMap_congr
  intro md _
  rw [List.filter_flatMap]
  apply List.flatMap_congr
  intro dd _
  simp [loadDateRecordsFiltered, maybeReverse_false]

/-- On a list whose starts are strictly descending, the first record passing
a predicate is the one with the greatest start among all passing records. -/
lemma head_filter_desc (p : Record → Bool) :
    ∀ l : List Record, List.Pairwise (fun a b : Record => b.Start < a.Start) l →
      (∀ r, (l.filter p).head? = some r →
          p r = true ∧ r ∈ l ∧ ∀ x ∈ l, p x = true → x.Start ≤ r.Start)
      ∧ ((l.filter p).head? = none → ∀ x ∈ l, p x = false) := by
  intro l
  induction l with
  | nil => simp
  | cons a rest ih =>
    intro hp
    rw [List.pairwise_cons] at hp
    have ihr := ih hp.2
    by_cases hpa : p a = true
    · rw [List.filter_cons_of_pos hpa]
      constructor
      · intro r hr
        rw [List.head?_cons, Option.some.injEq] at hr
        subst hr
        refine ⟨hpa, List.mem_cons_self a rest, ?_⟩
        intro x hx _
        rcases List.mem_cons.mp hx with rfl | hx2
        · exact Nat.le_refl _
        · exact Nat.le_of_lt (hp.1 x hx2)
      · intro hnone
        rw [List.head?_cons] at hnone
        cases hnone
    · rw [List.filter_cons_of_neg hpa]
      constructor
      · intro r hr
        obtain ⟨h1, h2, h3⟩ := ihr.1 r hr
        refine ⟨h1, List.mem_cons_of_mem a h2, ?_⟩
        intro x hx hpx
        rcases List.mem_cons.mp hx with rfl | hx2
        · exact absurd hpx hpa
        · exact h3 x hx2 hpx
      · intro hnone x hx
        rcases List.mem_cons.mp hx with rfl | hx2
        · exact Bool.eq_false_iff.mpr hpa
        · exact ihr.2 hnone x hx2

/-- Claim C5: on a chronologically well-formed store, `FindLatestRecord`
returns the record with the greatest start among the stored records
satisfying the condition, or `nil` when none does; and the underlying
reverse scan yields exactly the reverse of the forward scan (years, months,
days and records within a day all visited in descending order), consumed
for its first element only. -/
theorem claim_C5_findLatestRecord :
    ∀ (store : List YearDir) (cond : Record → Bool),
      sortedByStart (flattenStore store) = true →
      (∀ r, findLatestRecord store cond = some r →
          cond r = true ∧ r ∈ flattenStore store
          ∧ ∀ x ∈ flattenStore store, cond x = true → x.Start ≤ r.Start)
      ∧ (findLatestRecord store cond = none →
          ∀ x ∈ flattenStore store, cond x = false)
      ∧ ∀ fl : FilterFns,
          allRecordsFiltered store fl true
            = (allRecordsFiltered store fl false).reverse := by
  intro store cond hsort
  have hpair := sortedByStart_pairwise _ hsort
  have hdesc : List.Pairwise (fun a b : Record => b.Start < a.Start)
      (flattenStore store).reverse := List.pairwise_reverse.mpr hpair
  have hcond : (fun r => filterAll r [cond]) = cond := by
    funext r
    simp [filterAll]
  have hfind : findLatestRecord store cond
      = ((flattenStore store).reverse.filter cond).head? := by
    rw [findLatestRecord, allRecordsFiltered_reverse,
      allRecordsFiltered_noBounds, hcond, ← List.filter_reverse]
  have hmain := head_filter_desc cond (flattenStore store).reverse hdesc
  refine ⟨?_, ?_, fun fl => allRecordsFiltered_reverse store fl⟩
  · intro r hr
    rw [hfind] at hr
    obtain ⟨h1, h2, h3⟩ := hmain.1 r hr
    exact ⟨h1, List.mem_reverse.mp h2,
      fun x hx hpx => h3 x (List.mem_reverse.mpr hx) hpx⟩
  · intro hr x hx
    rw [hfind] at hr
    exact hmain.2 hr x (List.mem_reverse.mpr hx)

/-- Concrete store for the C5 witness: records over two years, with two
records of project `a` (starts 100 and 200) and one of project `b`. -/
def store0 : List YearDir :=
  [{ year := 2022, months := [{ month := 3, days :=
      [{ day := 5, recs :=
        [{ Project := "a", Start := 100, End := 110, Note := "", Tags := [], Pause := [] }] }] }] },
   { year := 2023, months := [{ month := 1, days :=
      [{ day := 2, recs :=
        [{ Project := "a", Start := 200, End := 210, Note := "", Tags := [], Pause := [] },
         { Project := "b", Start := 300, End := 0, Note := "", Tags := [], Pause := [] }] }] }] }]

/-- The predicate of the C5 witness: records of project `a`. -/
def cond0 : Record → Bool := fun r => r.Project == "a"

/-- The latest record of project `a` in `store0`. -/
def recLatest : Record :=
  { Project := "a", Start := 200, End := 210, Note := "", Tags := [], Pause := [] }

/-- Witness for C5: on the concrete store, the record found by the reverse
scan is the greatest-start record satisfying the condition. -/
theorem claim_C5_findLatestRecord_witness :
    cond0 recLatest = true ∧ recLatest ∈ flattenStore store0
    ∧ ∀ x ∈ flattenStore store0, cond0 x = true → x.Start ≤ recLatest.Start :=
  ((claim_C5_findLatestRecord store0 cond0 (by decide)).1) recLatest (by decide)

end Track
